import Mathlib

/-
Verification of the back-agent-mcp concurrent task-execution core.

The development shallowly embeds two components of the repository:

* the Process Executor (`src/claude/executor.ts`): `buildCliArgs` and
  `executeClaudeTask`.  The child process and the file system are modelled
  as an explicit environment (`ExecEnv`): the behaviour of the spawned
  process is a record of the events Node.js would deliver (an `error`
  event, incremental stdout/stderr chunks, and a `close` event carrying an
  exit code at some wall-clock instant).  The `setTimeout` race is
  resolved by comparing the configured timeout with the instant of the
  `close` event.

* the Task Manager (`src/task-manager/task-manager.ts`): the task map and
  the asynchronous `executeTask` routine are embedded as a small-step
  transition system.  Each `await` in the source delimits an atomic block;
  the blocks become the steps of an inductive `Step` relation.  A per-task
  program counter (`PC`) records where the task's background routine is
  suspended.  `deleteTask` removes a record from the map while the routine
  keeps mutating its captured object; this is modelled by a `deleted` flag
  (map reads filter it out, routine writes ignore it).
-/

namespace BackAgent

/- ===================================================================
   Process Executor (src/claude/executor.ts)
   =================================================================== -/

/-- Options of `executeClaudeTask` (interface `ExecutionOptions`). -/
structure ExecutionOptions where
  task : String
  workingDirectory : Option String
  timeout : Option Nat
  additionalArgs : Option (List String)
deriving Repr

/-- Result record of the executor (interface `ExecutionResult`). -/
structure ExecutionResult where
  success : Bool
  stdout : String
  stderr : String
  exitCode : Option Int
  error : Option String
deriving DecidableEq, Repr

/-- The `McpServerError` thrown for a missing working directory. -/
structure McpServerError where
  code : String
  message : String
deriving DecidableEq, Repr

/-- Events the spawned child process delivers, as observed by the
executor's handlers: an optional `error` event (spawn failure), the
stdout/stderr chunks delivered before the terminal event, and the
`close` event with its exit code (`null` modelled as `none`) firing at
wall-clock instant `closeTime` (milliseconds after spawn). -/
structure ProcBehavior where
  errEvent : Option String
  stdoutChunks : List String
  stderrChunks : List String
  closeTime : Nat
  closeCode : Option Int
deriving Repr

/-- Environment of one `executeClaudeTask` call: `process.cwd()`,
`path.resolve`, `fs.existsSync`, and the child-process behaviour. -/
structure ExecEnv where
  processCwd : String
  resolvePath : String → String
  pathExists : String → Bool
  behavior : ProcBehavior

/-- The fixed deny-list (`invalidArgs` in `buildCliArgs`): print-mode
flags, auto-confirm flags and cache-control flags. -/
def invalidArgsList : List String :=
  ["-p", "--print", "-y", "--yes", "-n", "--no", "--no-yes", "--cache", "--ignore-existing"]

/-- `buildCliArgs` from `src/claude/executor.ts`: grants the working
directory via `--add-dir`, filters the deny-listed caller arguments,
and appends `-p` followed by the task text as the final two tokens.
Returns the argument vector together with the spawn cwd. -/
def buildCliArgs (task : String) (workingDirectory : String)
    (additionalArgs : List String) : List String × String :=
  let args : List String := ["--add-dir", workingDirectory]
  let filteredArgs := additionalArgs.filter (fun arg => !decide (arg ∈ invalidArgsList))
  let args := args ++ filteredArgs
  let args := args ++ ["-p", task]
  (args, workingDirectory)

/-- Substring test on character lists, modelling `String.includes`. -/
def containsSub (pat : List Char) : List Char → Bool
  | [] => pat.isPrefixOf []
  | c :: cs => pat.isPrefixOf (c :: cs) || containsSub pat cs

/-- `s.includes(pat)` of JavaScript. -/
def strContains (s pat : String) : Bool :=
  containsSub pat.data s.data

/-- The pattern matched against spawn errors for a missing binary. -/
def enoentPat : String := "ENOENT"

/-- The second pattern matched against spawn errors. -/
def notFoundPat : String := "not found"

/-- The user-actionable message for a missing `claude` binary. -/
def notFoundMsg : String :=
  "Claude Code CLI not found. Please ensure Claude Code is installed and in your PATH."

/-- The timeout error message (`Execution timed out after ...ms`). -/
def timeoutMsg (timeout : Nat) : String :=
  "Execution timed out after " ++ toString timeout ++ "ms"

/-- Error code `ErrorCode.INVALID_WORKING_DIRECTORY`. -/
def invalidWdCode : String := "INVALID_WORKING_DIRECTORY"

/-- Working-directory resolution of `executeClaudeTask`: resolve the
argument when present, else default to `process.cwd()`. -/
def resolveCwd (opts : ExecutionOptions) (env : ExecEnv) : String :=
  match opts.workingDirectory with
  | some wd => env.resolvePath wd
  | none => env.processCwd

/-- Outcome of the promise raced between the `close` and `error`
handlers, given the behaviour of the child process.  An `error` event
resolves first on spawn failure (the promise resolves once); otherwise
the `close` handler resolves, reporting a timeout failure whenever the
timer fired strictly before the close instant. -/
def runChild (timeout : Nat) (b : ProcBehavior) : ExecutionResult :=
  match b.errEvent with
  | some msg =>
    if strContains msg enoentPat || strContains msg notFoundPat then
      { success := false, stdout := "", stderr := "", exitCode := none,
        error := some notFoundMsg }
    else
      { success := false, stdout := String.join b.stdoutChunks,
        stderr := String.join b.stderrChunks, exitCode := none, error := some msg }
  | none =>
    if timeout < b.closeTime then
      { success := false, stdout := String.join b.stdoutChunks,
        stderr := String.join b.stderrChunks, exitCode := b.closeCode,
        error := some (timeoutMsg timeout) }
    else
      { success := decide (b.closeCode = some 0), stdout := String.join b.stdoutChunks,
        stderr := String.join b.stderrChunks, exitCode := b.closeCode, error := none }

/-- `executeClaudeTask` from `src/claude/executor.ts`: resolves the
working directory (throwing `McpServerError` when it does not exist),
builds the CLI arguments, spawns the process and waits for the promise
to resolve.  Thrown errors are the `Except.error` branch. -/
def executeClaudeTask (opts : ExecutionOptions) (env : ExecEnv) :
    Except McpServerError ExecutionResult :=
  let timeout := opts.timeout.getD 300000
  let additionalArgs := opts.additionalArgs.getD []
  let cwd := resolveCwd opts env
  if env.pathExists cwd then
    let _cli := buildCliArgs opts.task cwd additionalArgs
    Except.ok (runChild timeout env.behavior)
  else
    Except.error { code := invalidWdCode,
                   message := "Working directory does not exist: " ++ cwd }

/-- C9: for every task text, resolved working directory and
caller-supplied extra-argument list, the built argument vector is the
accessible-path grant, then the extra arguments with every deny-listed
member removed (order preserved, nothing else dropped or added), then
the forced non-interactive flag and the task text as the final two
tokens. -/
theorem C9_buildCliArgs (task wd : String) (extra : List String) :
    ∃ kept : List String,
      (buildCliArgs task wd extra).1 = ["--add-dir", wd] ++ kept ++ ["-p", task] ∧
      List.Sublist kept extra ∧
      (∀ a, a ∈ invalidArgsList → a ∉ kept) ∧
      (∀ a, a ∈ extra → a ∉ invalidArgsList → a ∈ kept) ∧
      (buildCliArgs task wd extra).2 = wd := by
  refine ⟨extra.filter (fun arg => !decide (arg ∈ invalidArgsList)),
    rfl, List.filter_sublist extra, ?_, ?_, rfl⟩
  · intro a ha hmem
    rcases List.mem_filter.mp hmem with ⟨-, hb⟩
    simp only [Bool.not_eq_true', decide_eq_false_iff_not] at hb
    exact hb ha
  · intro a ha hna
    refine List.mem_filter.mpr ⟨ha, ?_⟩
    simp only [Bool.not_eq_true', decide_eq_false_iff_not]
    exact hna

/-- C9 witness: a concrete evaluation of the theorem, showing an
auto-confirm flag being stripped while an ordinary flag survives. -/
theorem C9_buildCliArgs_witness :
    ∃ kept : List String,
      (buildCliArgs "fix the bug" "/w" ["-y", "--verbose"]).1 =
        ["--add-dir", "/w"] ++ kept ++ ["-p", "fix the bug"] ∧
      List.Sublist kept ["-y", "--verbose"] ∧
      (∀ a, a ∈ invalidArgsList → a ∉ kept) ∧
      (∀ a, a ∈ ["-y", "--verbose"] → a ∉ invalidArgsList → a ∈ kept) ∧
      (buildCliArgs "fix the bug" "/w" ["-y", "--verbose"]).2 = "/w" :=
  C9_buildCliArgs "fix the bug" "/w" ["-y", "--verbose"]

/-- C5: whenever the timeout timer fires before the child process
closes (and the call got past the working-directory check), the
executor's result is a timeout failure — `success = false` with the
timeout-specific error message — regardless of the exit code the
`close` event subsequently reports, including `some 0`. -/
theorem C5_timeout_wins (opts : ExecutionOptions) (env : ExecEnv)
    (hwd : env.pathExists (resolveCwd opts env) = true)
    (hne : env.behavior.errEvent = none)
    (hto : opts.timeout.getD 300000 < env.behavior.closeTime) :
    executeClaudeTask opts env =
      Except.ok { success := false,
                  stdout := String.join env.behavior.stdoutChunks,
                  stderr := String.join env.behavior.stderrChunks,
                  exitCode := env.behavior.closeCode,
                  error := some (timeoutMsg (opts.timeout.getD 300000)) } := by
  simp only [executeClaudeTask, hwd, if_true, runChild, hne, if_pos hto]

/-- C5 witness: a process that would report exit code 0 at 500ms under
a 100ms timeout still yields a timeout failure. -/
theorem C5_timeout_wins_witness :
    executeClaudeTask
      { task := "build", workingDirectory := none, timeout := some 100,
        additionalArgs := none }
      { processCwd := "/srv/app", resolvePath := fun p => p,
        pathExists := fun _ => true,
        behavior := { errEvent := none, stdoutChunks := ["partial"],
                      stderrChunks := [], closeTime := 500, closeCode := some 0 } } =
      Except.ok { success := false, stdout := String.join ["partial"],
                  stderr := String.join [], exitCode := some 0,
                  error := some (timeoutMsg 100) } :=
  C5_timeout_wins _ _ rfl rfl (by decide)

/-- C6: the executor throws (returns `Except.error`) exactly when the
resolved working directory does not exist, and that error is the
distinct configuration error `INVALID_WORKING_DIRECTORY`; an absent
working-directory argument defaults to the process's own current
directory; and every spawn failure is returned as a failed result
rather than thrown, the executable-not-found case producing its
specific user-actionable message and other spawn errors propagating
their own message. -/
theorem C6_throw_iff_bad_wd (opts : ExecutionOptions) (env : ExecEnv) :
    ((∃ e, executeClaudeTask opts env = Except.error e) ↔
      env.pathExists (resolveCwd opts env) = false) ∧
    (∀ e, executeClaudeTask opts env = Except.error e → e.code = invalidWdCode) ∧
    (opts.workingDirectory = none → resolveCwd opts env = env.processCwd) ∧
    (env.pathExists (resolveCwd opts env) = true →
      ∀ msg, env.behavior.errEvent = some msg →
        executeClaudeTask opts env =
          Except.ok (if strContains msg enoentPat || strContains msg notFoundPat then
              { success := false, stdout := "", stderr := "", exitCode := none,
                error := some notFoundMsg }
            else
              { success := false, stdout := String.join env.behavior.stdoutChunks,
                stderr := String.join env.behavior.stderrChunks, exitCode := none,
                error := some msg })) := by
  refine ⟨⟨?_, ?_⟩, ?_, ?_, ?_⟩
  · rintro ⟨e, he⟩
    by_cases h : env.pathExists (resolveCwd opts env) = true
    · simp only [executeClaudeTask, h, if_true] at he
      exact Except.noConfusion he
    · simpa using h
  · intro h
    refine ⟨{ code := invalidWdCode,
              message := "Working directory does not exist: " ++ resolveCwd opts env }, ?_⟩
    simp only [executeClaudeTask, h, Bool.false_eq_true, if_false]
  · intro e he
    by_cases h : env.pathExists (resolveCwd opts env) = true
    · simp only [executeClaudeTask, h, if_true] at he
      exact Except.noConfusion he
    · simp only [executeClaudeTask, h, Bool.false_eq_true, if_false] at he
      cases he
      rfl
  · intro h
    simp only [resolveCwd, h]
  · intro h msg hmsg
    simp only [executeClaudeTask, h, if_true, runChild, hmsg]

/-- C6 witness: concrete instances — a missing directory throws; an
absent working directory resolves to the process cwd; an ENOENT spawn
error yields the specific not-found failure result. -/
theorem C6_throw_iff_bad_wd_witness :
    (∃ e, executeClaudeTask
        { task := "build", workingDirectory := some "/gone", timeout := none,
          additionalArgs := none }
        { processCwd := "/srv/app", resolvePath := fun p => p,
          pathExists := fun _ => false,
          behavior := { errEvent := none, stdoutChunks := [], stderrChunks := [],
                        closeTime := 0, closeCode := some 0 } } = Except.error e) ∧
    resolveCwd
      { task := "build", workingDirectory := none, timeout := none,
        additionalArgs := none }
      { processCwd := "/srv/app", resolvePath := fun p => p,
        pathExists := fun _ => true,
        behavior := { errEvent := none, stdoutChunks := [], stderrChunks := [],
                      closeTime := 0, closeCode := some 0 } } = "/srv/app" ∧
    executeClaudeTask
      { task := "build", workingDirectory := none, timeout := none,
        additionalArgs := none }
      { processCwd := "/srv/app", resolvePath := fun p => p,
        pathExists := fun _ => true,
        behavior := { errEvent := some "spawn claude ENOENT", stdoutChunks := [],
                      stderrChunks := [], closeTime := 0, closeCode := none } } =
      Except.ok { success := false, stdout := "", stderr := "", exitCode := none,
                  error := some notFoundMsg } := by
  refine ⟨(C6_throw_iff_bad_wd _ _).1.mpr rfl,
          (C6_throw_iff_bad_wd _ _).2.2.1 rfl, ?_⟩
  have h := (C6_throw_iff_bad_wd
    { task := "build", workingDirectory := none, timeout := none,
      additionalArgs := none }
    { processCwd := "/srv/app", resolvePath := fun p => p,
      pathExists := fun _ => true,
      behavior := { errEvent := some "spawn claude ENOENT", stdoutChunks := [],
                    stderrChunks := [], closeTime := 0,
                    closeCode := none } }).2.2.2 rfl "spawn claude ENOENT" rfl
  exact h.trans rfl

/-- C7: when the process is observed to exit (no spawn error), the
result is a success exactly when the exit code is zero and no timeout
occurred, and it carries the accumulated stdout/stderr and the exit
code; when the process could not be observed to exit (spawn failure),
the exit code of the failed result is `none`. -/
theorem C7_exit_result (opts : ExecutionOptions) (env : ExecEnv)
    (hwd : env.pathExists (resolveCwd opts env) = true) :
    (env.behavior.errEvent = none →
      ∃ r, executeClaudeTask opts env = Except.ok r ∧
        (r.success = true ↔
          (env.behavior.closeCode = some 0 ∧
           ¬ opts.timeout.getD 300000 < env.behavior.closeTime)) ∧
        r.stdout = String.join env.behavior.stdoutChunks ∧
        r.stderr = String.join env.behavior.stderrChunks ∧
        r.exitCode = env.behavior.closeCode) ∧
    (∀ msg, env.behavior.errEvent = some msg →
      ∃ r, executeClaudeTask opts env = Except.ok r ∧
        r.success = false ∧ r.exitCode = none) := by
  constructor
  · intro hne
    refine ⟨runChild (opts.timeout.getD 300000) env.behavior, ?_, ?_⟩
    · simp only [executeClaudeTask, hwd, if_true]
    · simp only [runChild, hne]
      by_cases hto : opts.timeout.getD 300000 < env.behavior.closeTime
      · simp [hto]
      · simp [hto]
  · intro msg hmsg
    refine ⟨runChild (opts.timeout.getD 300000) env.behavior, ?_, ?_⟩
    · simp only [executeClaudeTask, hwd, if_true]
    · simp only [runChild, hmsg]
      by_cases hpat : strContains msg enoentPat || strContains msg notFoundPat
      · simp [hpat]
      · simp [hpat]

/-- C7 witness: a process exiting with code 0 at 50ms under a 100ms
timeout yields a success carrying the accumulated output. -/
theorem C7_exit_result_witness :
    ∃ r, executeClaudeTask
        { task := "build", workingDirectory := none, timeout := some 100,
          additionalArgs := none }
        { processCwd := "/srv/app", resolvePath := fun p => p,
          pathExists := fun _ => true,
          behavior := { errEvent := none, stdoutChunks := ["out"],
                        stderrChunks := ["err"], closeTime := 50,
                        closeCode := some 0 } } = Except.ok r ∧
      (r.success = true ↔ ((some 0 : Option Int) = some 0 ∧ ¬ (100 : Nat) < 50)) ∧
      r.stdout = String.join ["out"] ∧
      r.stderr = String.join ["err"] ∧
      r.exitCode = some 0 :=
  (C7_exit_result _ _ rfl).1 rfl

/- ===================================================================
   Task Manager (src/task-manager/task-manager.ts)
   =================================================================== -/

/-- The five lifecycle states (`TaskStatus`). -/
inductive TaskStatus
  | pending
  | running
  | completed
  | failed
  | cancelled
deriving DecidableEq, Repr

/-- Program counter of a task's background `executeTask` routine:
suspended in the admission poll loop (`waiting`), suspended awaiting
`executeClaudeTask` (`executing`), or returned (`done`). -/
inductive PC
  | waiting
  | executing
  | done
deriving DecidableEq, Repr

/-- A task record (interface `Task`).  `createdAt`/`startedAt`/
`completedAt` are instants of the manager clock. -/
structure Task where
  id : Nat
  task : String
  workingDirectory : Option String
  timeout : Nat
  additionalArgs : Option (List String)
  status : TaskStatus
  createdAt : Nat
  startedAt : Option Nat
  completedAt : Option Nat
  result : Option ExecutionResult
  error : Option String
deriving DecidableEq, Repr

/-- A heap slot: the task object, its routine's program counter, and
whether `tasks.delete(id)` has removed it from the map.  The routine of
a deleted task still mutates the object through its captured reference;
every map read filters `deleted`. -/
structure TaskEntry where
  task : Task
  pc : PC
  deleted : Bool
deriving DecidableEq, Repr

/-- State of one `TaskManager`: the association list of task slots
(keys are the identifiers, modelling the uuid by a counter), the next
fresh identifier, the concurrency bound, and the clock. -/
structure MState where
  entries : List (Nat × TaskEntry)
  nextId : Nat
  maxConcurrent : Nat
  now : Nat
deriving Repr

/-- Arguments of `createTask` (interface `CreateTaskOptions`). -/
structure CreateTaskOptions where
  task : String
  workingDirectory : Option String
  timeout : Option Nat
  additionalArgs : Option (List String)
deriving Repr

/-- First entry with the given key (`Map.get`). -/
def findEntry (j : Nat) : List (Nat × TaskEntry) → Option TaskEntry
  | [] => none
  | p :: l => if p.1 = j then some p.2 else findEntry j l

/-- Number of list members satisfying a Boolean predicate. -/
def countB (f : α → Bool) : List α → Nat
  | [] => 0
  | a :: l => (if f a then 1 else 0) + countB f l

/-- Whether a slot is a map-visible record in `running` status. -/
def liveRun (p : Nat × TaskEntry) : Bool :=
  !p.2.deleted && decide (p.2.task.status = TaskStatus.running)

/-- `getRunningCount`: scan of the map for `running` records. -/
def getRunningCount (s : MState) : Nat :=
  countB liveRun s.entries

/-- Point update of the slot with the given key. -/
def updEntry (id : Nat) (e : TaskEntry) (p : Nat × TaskEntry) : Nat × TaskEntry :=
  if p.1 = id then (id, e) else p

/-- Write a slot back into the state. -/
def setEntry (s : MState) (id : Nat) (e : TaskEntry) : MState :=
  { s with entries := s.entries.map (updEntry id e) }

/-- Status of the task object with the given identifier. -/
def statusOf (s : MState) (id : Nat) : Option TaskStatus :=
  (findEntry id s.entries).map (fun e => e.task.status)

/-- Program counter of the routine with the given identifier. -/
def pcOf (s : MState) (id : Nat) : Option PC :=
  (findEntry id s.entries).map (fun e => e.pc)

/-- The atomic block of `executeTask` from the `while` condition to the
next suspension: if the running count has reached the bound the routine
stays suspended in the poll loop; otherwise it returns if the task was
cancelled, else marks it `running`, stamps `startedAt`, and suspends
awaiting the executor. -/
def executeTaskAdmit (s : MState) (id : Nat) : MState :=
  match findEntry id s.entries with
  | none => s
  | some e =>
    if s.maxConcurrent ≤ getRunningCount s then s
    else if e.task.status = TaskStatus.cancelled then
      setEntry s id { e with pc := PC.done }
    else
      setEntry s id
        { e with pc := PC.executing,
                 task := { e.task with status := TaskStatus.running,
                                       startedAt := some s.now } }

/-- The atomic block starting when the poll sleep resumes: the loop
body first returns if the task was cancelled while waiting, then falls
back to the loop condition. -/
def executeTaskWake (s : MState) (id : Nat) : MState :=
  match findEntry id s.entries with
  | none => s
  | some e =>
    if e.task.status = TaskStatus.cancelled then
      setEntry s id { e with pc := PC.done }
    else executeTaskAdmit s id

/-- Outcome delivered to the suspended `await executeClaudeTask` call:
either a resolved `ExecutionResult` or a thrown exception, reduced to
its message as the `catch` block does. -/
inductive ExecOutcome
  | ok (r : ExecutionResult)
  | exn (msg : String)

/-- Default error recorded when a failed result has no message. -/
def execFailedMsg : String := "Task execution failed"

/-- The tail of `executeTask` after the executor call returns: store
the result and completion time, then set `completed` or `failed`; on a
thrown exception, set `failed` with the exception message. -/
def finishEntry (now : Nat) (o : ExecOutcome) (e : TaskEntry) : TaskEntry :=
  match o with
  | ExecOutcome.ok r =>
    let t1 := { e.task with result := some r, completedAt := some now }
    let t2 := if r.success then { t1 with status := TaskStatus.completed }
      else { t1 with status := TaskStatus.failed,
                     error := some (r.error.getD execFailedMsg) }
    { e with task := t2, pc := PC.done }
  | ExecOutcome.exn msg =>
    { e with pc := PC.done,
             task := { e.task with status := TaskStatus.failed,
                                   error := some msg, completedAt := some now } }

/-- Resumption of the routine when the executor call settles. -/
def executeTaskFinish (s : MState) (id : Nat) (o : ExecOutcome) : MState :=
  match findEntry id s.entries with
  | none => s
  | some e => setEntry s id (finishEntry s.now o e)

/-- The `pending` record `createTask` stores, with creation stamp. -/
def freshEntry (s : MState) (o : CreateTaskOptions) : TaskEntry :=
  { task := { id := s.nextId, task := o.task, workingDirectory := o.workingDirectory,
              timeout := o.timeout.getD 300, additionalArgs := o.additionalArgs,
              status := TaskStatus.pending, createdAt := s.now, startedAt := none,
              completedAt := none, result := none, error := none },
    pc := PC.waiting, deleted := false }

/-- Insertion of the fresh `pending` record under a fresh identifier. -/
def insertFresh (s : MState) (o : CreateTaskOptions) : MState :=
  { s with entries := s.entries ++ [(s.nextId, freshEntry s o)],
           nextId := s.nextId + 1 }

/-- `createTask`: allocate a fresh identifier, store a `pending` record
stamped with the creation time, and start `executeTask`, which runs
synchronously up to its first suspension (the admission block). -/
def createTask (s : MState) (o : CreateTaskOptions) : MState × Nat :=
  (executeTaskAdmit (insertFresh s o) s.nextId, s.nextId)

/-- `cancelTask`: returns true and marks the record `cancelled` with a
completion stamp only when it is `pending` or `running`. -/
def cancelTask (s : MState) (id : Nat) : MState × Bool :=
  match findEntry id s.entries with
  | none => (s, false)
  | some e =>
    if e.deleted then (s, false)
    else if e.task.status = TaskStatus.pending ∨ e.task.status = TaskStatus.running then
      (setEntry s id
        { e with task := { e.task with status := TaskStatus.cancelled,
                                       completedAt := some s.now } }, true)
    else (s, false)

/-- `deleteTask`: unconditionally removes the record from the map. -/
def deleteTask (s : MState) (id : Nat) : MState × Bool :=
  match findEntry id s.entries with
  | none => (s, false)
  | some e =>
    if e.deleted then (s, false)
    else (setEntry s id { e with deleted := true }, true)

/-- A terminal lifecycle state. -/
def isTerminal (st : TaskStatus) : Bool :=
  decide (st = TaskStatus.completed) || decide (st = TaskStatus.failed) ||
    decide (st = TaskStatus.cancelled)

/-- The `cleanup` removal condition for one slot. -/
def shouldClean (now olderThanMs : Nat) (e : TaskEntry) : Bool :=
  !e.deleted && isTerminal e.task.status &&
    (match e.task.completedAt with
     | some c => decide (olderThanMs < now - c)
     | none => false)

/-- Per-slot effect of `cleanup`: remove a matching record. -/
def cleanG (now olderThanMs : Nat) (e : TaskEntry) : TaskEntry :=
  if shouldClean now olderThanMs e then { e with deleted := true } else e

/-- `cleanup`: removes terminal records whose completion stamp is older
than the threshold; returns the state and the number removed. -/
def cleanup (s : MState) (olderThanMs : Nat) : MState × Nat :=
  ({ s with entries := s.entries.map (fun p => (p.1, cleanG s.now olderThanMs p.2)) },
   countB (fun p => shouldClean s.now olderThanMs p.2) s.entries)

/-- The `zod` bound on the `timeout` argument of the `create-task`
tool (`z.number().min(1).max(3600)`, optional). -/
def createTaskSchemaOk (timeout : Option Nat) : Bool :=
  match timeout with
  | none => true
  | some t => decide (1 ≤ t) && decide (t ≤ 3600)

/-- The `create-task` tool handler: validate the input against the
schema, then call `TaskManager.createTask`; on validation failure
return an error response (`none`) without touching the manager. -/
def createTaskToolHandler (s : MState) (i : CreateTaskOptions) : MState × Option Nat :=
  if createTaskSchemaOk i.timeout then
    let r := createTask s i
    (r.1, some r.2)
  else (s, none)

/-- Live records of the map, in insertion order (`listTasks` view). -/
def liveTasks (s : MState) : List Task :=
  (s.entries.filter (fun p => !p.2.deleted)).map (fun p => p.2.task)

/-- Count of live records in one status. -/
def countStatus (st : TaskStatus) (l : List Task) : Nat :=
  countB (fun t => decide (t.status = st)) l

/-- The record returned by `getStats`. -/
structure TaskStats where
  total : Nat
  pending : Nat
  running : Nat
  completed : Nat
  failed : Nat
  cancelled : Nat
deriving DecidableEq, Repr

/-- `getStats`: the map size and one counter per status. -/
def getStats (s : MState) : TaskStats :=
  { total := (liveTasks s).length,
    pending := countStatus TaskStatus.pending (liveTasks s),
    running := countStatus TaskStatus.running (liveTasks s),
    completed := countStatus TaskStatus.completed (liveTasks s),
    failed := countStatus TaskStatus.failed (liveTasks s),
    cancelled := countStatus TaskStatus.cancelled (liveTasks s) }

/-- A fresh manager with the given concurrency bound (default 3). -/
def initState (n : Nat) : MState :=
  { entries := [], nextId := 0, maxConcurrent := n, now := 0 }

/-- One atomic step of the manager: an API call, a resumption of a
suspended routine, or the passage of time.  Resumptions are enabled
only at the matching suspension point. -/
inductive Step : MState → MState → Prop
  | create (s : MState) (o : CreateTaskOptions) : Step s (createTask s o).1
  | wake (s : MState) (id : Nat) (h : pcOf s id = some PC.waiting) :
      Step s (executeTaskWake s id)
  | finish (s : MState) (id : Nat) (o : ExecOutcome)
      (h : pcOf s id = some PC.executing) : Step s (executeTaskFinish s id o)
  | cancel (s : MState) (id : Nat) : Step s (cancelTask s id).1
  | del (s : MState) (id : Nat) : Step s (deleteTask s id).1
  | clean (s : MState) (ms : Nat) : Step s (cleanup s ms).1
  | tick (s : MState) (n : Nat) : Step s { s with now := s.now + n }

/-- States reachable from a fresh manager with concurrency bound n. -/
inductive Reachable (n : Nat) : MState → Prop
  | init : Reachable n (initState n)
  | step {s s' : MState} : Reachable n s → Step s s' → Reachable n s'

/-- Reflexive-transitive closure of `Step`. -/
inductive StepStar : MState → MState → Prop
  | refl (s : MState) : StepStar s s
  | tail {s s' s'' : MState} : StepStar s s' → Step s' s'' → StepStar s s''

/- ===================================================================
   Association-list and counting lemmas
   =================================================================== -/

lemma updEntry_fst (id : Nat) (e : TaskEntry) (p : Nat × TaskEntry) :
    (updEntry id e p).1 = p.1 := by
  by_cases h : p.1 = id <;> simp [updEntry, h]

lemma findEntry_map_upd (id : Nat) (e : TaskEntry) (j : Nat)
    (l : List (Nat × TaskEntry)) :
    findEntry j (l.map (updEntry id e)) =
      if j = id then Option.map (fun _ => e) (findEntry j l) else findEntry j l := by
  induction l with
  | nil => by_cases h : j = id <;> simp [findEntry, h]
  | cons p t ih =>
    by_cases hp : p.1 = id
    · by_cases hj : j = id
      · subst hj
        simp [findEntry, updEntry, hp]
      · have hij : id ≠ j := fun h => hj h.symm
        simp [findEntry, updEntry, hp, hj, hij, ih]
    · by_cases hq : p.1 = j
      · have hj : ¬ j = id := fun h => hp (hq.trans h)
        simp [findEntry, updEntry, hp, hq, hj]
      · simp [findEntry, updEntry, hp, hq, ih]

lemma findEntry_append_some {j : Nat} {l1 : List (Nat × TaskEntry)} {e : TaskEntry}
    (l2 : List (Nat × TaskEntry)) (h : findEntry j l1 = some e) :
    findEntry j (l1 ++ l2) = some e := by
  induction l1 with
  | nil => simp [findEntry] at h
  | cons p t ih =>
    by_cases hp : p.1 = j
    · rw [findEntry, if_pos hp] at h
      rw [List.cons_append, findEntry, if_pos hp]
      exact h
    · rw [findEntry, if_neg hp] at h
      rw [List.cons_append, findEntry, if_neg hp]
      exact ih h

lemma findEntry_append_none {j : Nat} {l1 : List (Nat × TaskEntry)}
    (l2 : List (Nat × TaskEntry)) (h : findEntry j l1 = none) :
    findEntry j (l1 ++ l2) = findEntry j l2 := by
  induction l1 with
  | nil => simp
  | cons p t ih =>
    by_cases hp : p.1 = j
    · rw [findEntry, if_pos hp] at h
      exact Option.noConfusion h
    · rw [findEntry, if_neg hp] at h
      rw [List.cons_append, findEntry, if_neg hp]
      exact ih h

lemma findEntry_mem {j : Nat} {l : List (Nat × TaskEntry)} {e : TaskEntry}
    (h : findEntry j l = some e) : (j, e) ∈ l := by
  induction l with
  | nil => simp [findEntry] at h
  | cons p t ih =>
    obtain ⟨k, v⟩ := p
    by_cases hp : k = j
    · rw [findEntry, if_pos hp] at h
      injection h with h
      subst hp
      subst h
      exact List.mem_cons_self _ _
    · rw [findEntry, if_neg hp] at h
      exact List.mem_cons_of_mem _ (ih h)

lemma countB_append (f : α → Bool) (l1 l2 : List α) :
    countB f (l1 ++ l2) = countB f l1 + countB f l2 := by
  induction l1 with
  | nil => simp [countB]
  | cons a t ih =>
    show (if f a then 1 else 0) + countB f (t ++ l2) =
      ((if f a then 1 else 0) + countB f t) + countB f l2
    rw [ih]
    omega

lemma countB_map (q : β → Bool) (g : α → β) (l : List α) :
    countB q (l.map g) = countB (fun a => q (g a)) l := by
  induction l with
  | nil => rfl
  | cons a t ih => simp [countB, ih]

lemma countB_mono {p q : α → Bool} (h : ∀ a, p a = true → q a = true)
    (l : List α) : countB p l ≤ countB q l := by
  induction l with
  | nil => exact Nat.le_refl _
  | cons a t ih =>
    by_cases hp : p a = true
    · simp only [countB, hp, h a hp, if_true]
      omega
    · calc countB p (a :: t) = countB p t := by
            simp [countB, Bool.not_eq_true] at hp ⊢
            simp [hp]
      _ ≤ countB q t := ih
      _ ≤ countB q (a :: t) := by
            simp only [countB]
            exact Nat.le_add_left _ _

lemma countB_eq_zero_of {p : α → Bool} {l : List α}
    (h : ∀ a ∈ l, p a = false) : countB p l = 0 := by
  induction l with
  | nil => rfl
  | cons a t ih =>
    simp only [countB, h a (List.mem_cons_self a t)]
    simp only [Bool.false_eq_true, if_false, Nat.zero_add]
    exact ih fun b hb => h b (List.mem_cons_of_mem a hb)

lemma countB_key_le_one {l : List (Nat × TaskEntry)}
    (h : (l.map Prod.fst).Nodup) (id : Nat) :
    countB (fun p => decide (p.1 = id)) l ≤ 1 := by
  induction l with
  | nil => simp [countB]
  | cons p t ih =>
    rw [List.map_cons, List.nodup_cons] at h
    by_cases hp : p.1 = id
    · have hz : countB (fun q => decide (q.1 = id)) t = 0 := by
        apply countB_eq_zero_of
        intro a ha
        simp only [decide_eq_false_iff_not]
        intro haid
        have hmem : a.1 ∈ t.map Prod.fst := List.mem_map_of_mem Prod.fst ha
        rw [haid, ← hp] at hmem
        exact h.1 hmem
      simp [countB, hp, hz]
    · simp only [countB, decide_eq_true_eq, hp, if_false, Nat.zero_add]
      exact ih h.2

lemma countB_liveRun_upd_le (id : Nat) (e : TaskEntry)
    (l : List (Nat × TaskEntry)) :
    countB liveRun (l.map (updEntry id e)) ≤
      countB liveRun l + countB (fun p => decide (p.1 = id)) l := by
  rw [countB_map]
  induction l with
  | nil => simp [countB]
  | cons p t ih =>
    simp only [countB]
    by_cases hp : p.1 = id
    · have h1 : (if liveRun (updEntry id e p) then 1 else 0) ≤ 1 := by
        split <;> omega
      have h2 : decide (p.1 = id) = true := by simpa using hp
      simp only [h2, if_true]
      omega
    · have h1 : updEntry id e p = p := by simp [updEntry, hp]
      have h2 : decide (p.1 = id) = false := by simpa using hp
      simp only [h1, h2, Bool.false_eq_true, if_false]
      omega

lemma findEntry_setEntry_ne {j id : Nat} (h : j ≠ id) (s : MState) (e : TaskEntry) :
    findEntry j (setEntry s id e).entries = findEntry j s.entries := by
  show findEntry j (s.entries.map (updEntry id e)) = _
  rw [findEntry_map_upd, if_neg h]

lemma findEntry_setEntry_self (s : MState) (id : Nat) (e : TaskEntry) :
    findEntry id (setEntry s id e).entries =
      Option.map (fun _ => e) (findEntry id s.entries) := by
  show findEntry id (s.entries.map (updEntry id e)) = _
  rw [findEntry_map_upd, if_pos rfl]

lemma getRunningCount_setEntry_le {e : TaskEntry} (s : MState) (id : Nat)
    (he : (!e.deleted && decide (e.task.status = TaskStatus.running)) = false) :
    getRunningCount (setEntry s id e) ≤ getRunningCount s := by
  show countB liveRun (s.entries.map (updEntry id e)) ≤ countB liveRun s.entries
  rw [countB_map]
  apply countB_mono
  intro p hlp
  by_cases h : p.1 = id
  · have hfe : liveRun (updEntry id e p) = false := by
      rw [updEntry, if_pos h]
      exact he
    rw [hfe] at hlp
    exact Bool.noConfusion hlp
  · rw [updEntry, if_neg h] at hlp
    exact hlp

/- ===================================================================
   Preservation lemmas: shape, well-formed keys, running count
   =================================================================== -/

lemma findEntry_map_snd (g : TaskEntry → TaskEntry) (j : Nat)
    (l : List (Nat × TaskEntry)) :
    findEntry j (l.map (fun p => (p.1, g p.2))) = Option.map g (findEntry j l) := by
  induction l with
  | nil => rfl
  | cons p t ih =>
    by_cases hp : p.1 = j
    · simp [findEntry, hp]
    · simp [findEntry, hp, ih]

lemma executeTaskAdmit_max (s : MState) (id : Nat) :
    (executeTaskAdmit s id).maxConcurrent = s.maxConcurrent := by
  unfold executeTaskAdmit
  split
  · rfl
  · split
    · rfl
    · split
      · rfl
      · rfl

lemma executeTaskWake_max (s : MState) (id : Nat) :
    (executeTaskWake s id).maxConcurrent = s.maxConcurrent := by
  unfold executeTaskWake
  split
  · rfl
  · split
    · rfl
    · exact executeTaskAdmit_max s id

lemma executeTaskFinish_max (s : MState) (id : Nat) (o : ExecOutcome) :
    (executeTaskFinish s id o).maxConcurrent = s.maxConcurrent := by
  unfold executeTaskFinish
  split
  · rfl
  · rfl

lemma cancelTask_max (s : MState) (id : Nat) :
    (cancelTask s id).1.maxConcurrent = s.maxConcurrent := by
  unfold cancelTask
  split
  · rfl
  · split
    · rfl
    · split
      · rfl
      · rfl

lemma deleteTask_max (s : MState) (id : Nat) :
    (deleteTask s id).1.maxConcurrent = s.maxConcurrent := by
  unfold deleteTask
  split
  · rfl
  · split
    · rfl
    · rfl

lemma step_max {s s' : MState} (h : Step s s') :
    s'.maxConcurrent = s.maxConcurrent := by
  cases h with
  | create o => exact executeTaskAdmit_max _ _
  | wake id _ => exact executeTaskWake_max _ id
  | finish id o _ => exact executeTaskFinish_max _ id o
  | cancel id => exact cancelTask_max _ id
  | del id => exact deleteTask_max _ id
  | clean ms => rfl
  | tick n => rfl

/-- Well-formed key structure: keys are below the fresh counter and
pairwise distinct (uniqueness of the generated identifiers). -/
def WFkeys (s : MState) : Prop :=
  (∀ p ∈ s.entries, p.1 < s.nextId) ∧ (s.entries.map Prod.fst).Nodup

lemma keys_map_upd (id : Nat) (e : TaskEntry) (l : List (Nat × TaskEntry)) :
    (l.map (updEntry id e)).map Prod.fst = l.map Prod.fst := by
  induction l with
  | nil => rfl
  | cons p t ih => simp [updEntry_fst, ih]

lemma keys_map_snd (g : TaskEntry → TaskEntry) (l : List (Nat × TaskEntry)) :
    (l.map (fun p => (p.1, g p.2))).map Prod.fst = l.map Prod.fst := by
  induction l with
  | nil => rfl
  | cons p t ih => simp [ih]

lemma wf_setEntry {s : MState} (h : WFkeys s) (id : Nat) (e : TaskEntry) :
    WFkeys (setEntry s id e) := by
  constructor
  · intro p hp
    rcases List.mem_map.mp hp with ⟨q, hq, hpq⟩
    have : p.1 = q.1 := by rw [← hpq, updEntry_fst]
    rw [this]
    exact h.1 q hq
  · show ((s.entries.map (updEntry id e)).map Prod.fst).Nodup
    rw [keys_map_upd]
    exact h.2

lemma nodup_append_singleton {l : List Nat} {a : Nat}
    (h1 : l.Nodup) (h2 : a ∉ l) : (l ++ [a]).Nodup := by
  induction l with
  | nil => simp
  | cons b t ih =>
    rw [List.cons_append, List.nodup_cons]
    rw [List.nodup_cons] at h1
    refine ⟨?_, ih h1.2 (fun ha => h2 (List.mem_cons_of_mem _ ha))⟩
    intro hb
    rcases List.mem_append.mp hb with hb | hb
    · exact h1.1 hb
    · rw [List.mem_singleton] at hb
      subst hb
      exact h2 (List.mem_cons_self _ _)

lemma wf_insertFresh {s : MState} (h : WFkeys s) (o : CreateTaskOptions) :
    WFkeys (insertFresh s o) := by
  constructor
  · intro p hp
    rcases List.mem_append.mp hp with hp | hp
    · exact Nat.lt_succ_of_lt (h.1 p hp)
    · rw [List.mem_singleton] at hp
      rw [hp]
      exact Nat.lt_succ_self _
  · show ((s.entries ++ [(s.nextId, freshEntry s o)]).map Prod.fst).Nodup
    rw [List.map_append]
    apply nodup_append_singleton h.2
    intro hmem
    rcases List.mem_map.mp hmem with ⟨q, hq, hq1⟩
    have := h.1 q hq
    omega

lemma wf_executeTaskAdmit {s : MState} (h : WFkeys s) (id : Nat) :
    WFkeys (executeTaskAdmit s id) := by
  unfold executeTaskAdmit
  split
  · exact h
  · split
    · exact h
    · split
      · exact wf_setEntry h id _
      · exact wf_setEntry h id _

lemma wf_step {s s' : MState} (hw : WFkeys s) (h : Step s s') : WFkeys s' := by
  cases h with
  | create o => exact wf_executeTaskAdmit (wf_insertFresh hw o) _
  | wake id _ =>
    unfold executeTaskWake
    split
    · exact hw
    · split
      · exact wf_setEntry hw id _
      · exact wf_executeTaskAdmit hw id
  | finish id o _ =>
    unfold executeTaskFinish
    split
    · exact hw
    · exact wf_setEntry hw id _
  | cancel id =>
    unfold cancelTask
    split
    · exact hw
    · split
      · exact hw
      · split
        · exact wf_setEntry hw id _
        · exact hw
  | del id =>
    unfold deleteTask
    split
    · exact hw
    · split
      · exact hw
      · exact wf_setEntry hw id _
  | clean ms =>
    constructor
    · intro p hp
      rcases List.mem_map.mp hp with ⟨q, hq, hpq⟩
      have : p.1 = q.1 := by rw [← hpq]
      rw [this]
      exact hw.1 q hq
    · show ((s.entries.map (fun p => (p.1, cleanG s.now ms p.2))).map Prod.fst).Nodup
      rw [keys_map_snd]
      exact hw.2
  | tick n => exact hw

lemma getRunningCount_setEntry_bound (s : MState) (id : Nat) (e : TaskEntry)
    (hk : (s.entries.map Prod.fst).Nodup) :
    getRunningCount (setEntry s id e) ≤ getRunningCount s + 1 := by
  have hb := countB_liveRun_upd_le id e s.entries
  have hk1 := countB_key_le_one hk id
  show countB liveRun (s.entries.map (updEntry id e)) ≤ countB liveRun s.entries + 1
  omega

lemma finishEntry_status (now : Nat) (o : ExecOutcome) (e : TaskEntry) :
    (finishEntry now o e).task.status = TaskStatus.completed ∨
    (finishEntry now o e).task.status = TaskStatus.failed := by
  cases o with
  | ok r => by_cases h : r.success <;> simp [finishEntry, h]
  | exn msg => right; rfl

lemma finishEntry_pc (now : Nat) (o : ExecOutcome) (e : TaskEntry) :
    (finishEntry now o e).pc = PC.done := by
  cases o with
  | ok r => by_cases h : r.success <;> simp [finishEntry, h]
  | exn msg => rfl

lemma getRunningCount_executeTaskAdmit {s : MState} (id : Nat)
    (hk : (s.entries.map Prod.fst).Nodup)
    (hc : getRunningCount s ≤ s.maxConcurrent) :
    getRunningCount (executeTaskAdmit s id) ≤ s.maxConcurrent := by
  unfold executeTaskAdmit
  split
  · exact hc
  · next e he =>
    split
    · exact hc
    · next h1 =>
      split
      · next h2 =>
        refine le_trans (getRunningCount_setEntry_le s id ?_) hc
        simp [h2]
      · next h2 =>
        have hlt : getRunningCount s < s.maxConcurrent := Nat.lt_of_not_le h1
        exact le_trans (getRunningCount_setEntry_bound s id _ hk) hlt

lemma getRunningCount_insertFresh (s : MState) (o : CreateTaskOptions) :
    getRunningCount (insertFresh s o) = getRunningCount s := by
  show countB liveRun (s.entries ++ [(s.nextId, freshEntry s o)]) = countB liveRun s.entries
  rw [countB_append]
  simp [countB, liveRun, freshEntry]

lemma count_step {s s' : MState} (hw : WFkeys s) (h : Step s s')
    (hc : getRunningCount s ≤ s.maxConcurrent) :
    getRunningCount s' ≤ s'.maxConcurrent := by
  rw [step_max h]
  cases h with
  | create o =>
    have hw1 := wf_insertFresh hw o
    have hc1 : getRunningCount (insertFresh s o) ≤ (insertFresh s o).maxConcurrent := by
      rw [getRunningCount_insertFresh]
      exact hc
    exact getRunningCount_executeTaskAdmit s.nextId hw1.2 hc1
  | wake id _ =>
    unfold executeTaskWake
    split
    · exact hc
    · next e he =>
      split
      · next h2 =>
        refine le_trans (getRunningCount_setEntry_le s id ?_) hc
        simp [h2]
      · exact getRunningCount_executeTaskAdmit id hw.2 hc
  | finish id o _ =>
    unfold executeTaskFinish
    split
    · exact hc
    · next e he =>
      refine le_trans (getRunningCount_setEntry_le s id ?_) hc
      rcases finishEntry_status s.now o e with h | h <;> simp [h]
  | cancel id =>
    unfold cancelTask
    split
    · exact hc
    · next e he =>
      split
      · exact hc
      · split
        · refine le_trans (getRunningCount_setEntry_le s id ?_) hc
          simp
        · exact hc
  | del id =>
    unfold deleteTask
    split
    · exact hc
    · next e he =>
      split
      · exact hc
      · refine le_trans (getRunningCount_setEntry_le s id ?_) hc
        simp
  | clean ms =>
    refine le_trans ?_ hc
    show countB liveRun (s.entries.map (fun p => (p.1, cleanG s.now ms p.2))) ≤
      countB liveRun s.entries
    rw [countB_map]
    apply countB_mono
    intro p hlp
    by_cases hsc : shouldClean s.now ms p.2
    · have hg : cleanG s.now ms p.2 = { p.2 with deleted := true } := by
        simp [cleanG, hsc]
      rw [show liveRun (p.1, cleanG s.now ms p.2) =
            liveRun (p.1, { p.2 with deleted := true }) from by rw [hg]] at hlp
      simp [liveRun] at hlp
    · have hg : cleanG s.now ms p.2 = p.2 := by simp [cleanG, hsc]
      rw [show liveRun (p.1, cleanG s.now ms p.2) = liveRun (p.1, p.2) from by rw [hg]] at hlp
      exact hlp
  | tick n => exact hc

lemma reachable_wf_count {n : Nat} {s : MState} (h : Reachable n s) :
    WFkeys s ∧ getRunningCount s ≤ n ∧ s.maxConcurrent = n := by
  induction h with
  | init =>
    exact ⟨⟨fun p hp => absurd hp (List.not_mem_nil p), List.nodup_nil⟩,
           Nat.zero_le n, rfl⟩
  | step hr hst ih =>
    have hw := wf_step ih.1 hst
    have h1 := ih.2.1
    have h2 := ih.2.2
    have hc := count_step ih.1 hst (by omega)
    have h3 := step_max hst
    exact ⟨hw, by omega, by omega⟩

/- ===================================================================
   Per-entry evolution: every step changes one slot in one of the ways
   the source allows
   =================================================================== -/

/-- Allowed single-step changes of one task slot: unchanged, removed,
cancelled from `pending`/`running`, poll-loop return of a cancelled
task, admission (`waiting` to `running`/`executing`), or completion of
the executor call. -/
inductive EStep : TaskEntry → TaskEntry → Prop
  | same (e : TaskEntry) : EStep e e
  | del (e : TaskEntry) : EStep e { e with deleted := true }
  | cancel (e : TaskEntry) (t : Nat)
      (h : e.task.status = TaskStatus.pending ∨ e.task.status = TaskStatus.running) :
      EStep e { e with task := { e.task with status := TaskStatus.cancelled,
                                             completedAt := some t } }
  | wakeDone (e : TaskEntry) (h1 : e.pc = PC.waiting)
      (h2 : e.task.status = TaskStatus.cancelled) :
      EStep e { e with pc := PC.done }
  | run (e : TaskEntry) (t : Nat) (h1 : e.pc = PC.waiting)
      (h2 : e.task.status ≠ TaskStatus.cancelled) :
      EStep e { e with pc := PC.executing,
                       task := { e.task with status := TaskStatus.running,
                                             startedAt := some t } }
  | finish (e : TaskEntry) (t : Nat) (o : ExecOutcome) (h : e.pc = PC.executing) :
      EStep e (finishEntry t o e)

/-- How the slot with key `j` evolves across one manager step: an
existing slot moves along `EStep` (and a transition into `running`
happens only below the concurrency bound), a fresh slot appears only as
`pending`/`waiting` or — again only below the bound — directly as
`running`/`executing`. -/
def EntryEvolution (s s' : MState) (j : Nat) : Prop :=
  (∀ e, findEntry j s.entries = some e →
    ∃ e', findEntry j s'.entries = some e' ∧ EStep e e' ∧
      (e.task.status ≠ TaskStatus.running → e'.task.status = TaskStatus.running →
        getRunningCount s < s.maxConcurrent)) ∧
  (findEntry j s.entries = none →
    findEntry j s'.entries = none ∨
    ∃ e', findEntry j s'.entries = some e' ∧ e'.deleted = false ∧
      ((e'.task.status = TaskStatus.pending ∧ e'.pc = PC.waiting) ∨
       (e'.task.status = TaskStatus.running ∧ e'.pc = PC.executing ∧
        getRunningCount s < s.maxConcurrent)))

lemma entryEvolution_of_eq {s s' : MState} (j : Nat)
    (heq : findEntry j s'.entries = findEntry j s.entries) :
    EntryEvolution s s' j := by
  constructor
  · intro e he
    exact ⟨e, heq.trans he, EStep.same e, fun hne hr => absurd hr hne⟩
  · intro hn
    exact Or.inl (heq.trans hn)

lemma entryEvolution_of_set {s : MState} {id : Nat} {e0 e1 : TaskEntry} (j : Nat)
    (he0 : findEntry id s.entries = some e0) (hes : EStep e0 e1)
    (hguard : e0.task.status ≠ TaskStatus.running →
      e1.task.status = TaskStatus.running → getRunningCount s < s.maxConcurrent) :
    EntryEvolution s (setEntry s id e1) j := by
  constructor
  · intro e he
    by_cases hj : j = id
    · subst hj
      rw [he] at he0
      injection he0 with he0
      subst he0
      refine ⟨e1, ?_, hes, hguard⟩
      rw [findEntry_setEntry_self, he]
      rfl
    · exact ⟨e, by rw [findEntry_setEntry_ne hj]; exact he,
             EStep.same e, fun hne hr => absurd hr hne⟩
  · intro hn
    by_cases hj : j = id
    · subst hj
      rw [hn] at he0
      exact Option.noConfusion he0
    · rw [findEntry_setEntry_ne hj]
      exact Or.inl hn

lemma cleanG_status (now ms : Nat) (e : TaskEntry) :
    (cleanG now ms e).task.status = e.task.status := by
  unfold cleanG
  split
  · rfl
  · rfl

lemma executeTaskAdmit_other {j id : Nat} (hj : j ≠ id) (s : MState) :
    findEntry j (executeTaskAdmit s id).entries = findEntry j s.entries := by
  unfold executeTaskAdmit
  split
  · rfl
  · split
    · rfl
    · split
      · exact findEntry_setEntry_ne hj s _
      · exact findEntry_setEntry_ne hj s _

lemma executeTaskAdmit_eq_of_found {s : MState} {id : Nat} {e0 : TaskEntry}
    (he0 : findEntry id s.entries = some e0) :
    executeTaskAdmit s id =
      if s.maxConcurrent ≤ getRunningCount s then s
      else if e0.task.status = TaskStatus.cancelled then
        setEntry s id { e0 with pc := PC.done }
      else setEntry s id
        { e0 with pc := PC.executing,
                  task := { e0.task with status := TaskStatus.running,
                                         startedAt := some s.now } } := by
  unfold executeTaskAdmit
  rw [he0]

lemma executeTaskWake_eq_of_found {s : MState} {id : Nat} {e0 : TaskEntry}
    (he0 : findEntry id s.entries = some e0) :
    executeTaskWake s id =
      if e0.task.status = TaskStatus.cancelled then
        setEntry s id { e0 with pc := PC.done }
      else executeTaskAdmit s id := by
  unfold executeTaskWake
  rw [he0]

lemma step_entry {s s' : MState} (h : Step s s') (hw : WFkeys s) (j : Nat) :
    EntryEvolution s s' j := by
  cases h with
  | tick n => exact entryEvolution_of_eq j rfl
  | clean ms =>
    constructor
    · intro e he
      refine ⟨cleanG s.now ms e, ?_, ?_, ?_⟩
      · show findEntry j (s.entries.map (fun p => (p.1, cleanG s.now ms p.2))) = _
        rw [findEntry_map_snd, he]
        rfl
      · unfold cleanG
        split
        · exact EStep.del e
        · exact EStep.same e
      · intro hne hr
        rw [cleanG_status] at hr
        exact absurd hr hne
    · intro hn
      left
      show findEntry j (s.entries.map (fun p => (p.1, cleanG s.now ms p.2))) = none
      rw [findEntry_map_snd, hn]
      rfl
  | cancel id =>
    show EntryEvolution s (cancelTask s id).1 j
    unfold cancelTask
    split
    · exact entryEvolution_of_eq j rfl
    · next e0 he0 =>
      split
      · exact entryEvolution_of_eq j rfl
      · split
        · next hpr =>
          refine entryEvolution_of_set j he0 (EStep.cancel e0 s.now hpr) ?_
          intro hne hr
          exact TaskStatus.noConfusion hr
        · exact entryEvolution_of_eq j rfl
  | del id =>
    show EntryEvolution s (deleteTask s id).1 j
    unfold deleteTask
    split
    · exact entryEvolution_of_eq j rfl
    · next e0 he0 =>
      split
      · exact entryEvolution_of_eq j rfl
      · exact entryEvolution_of_set j he0 (EStep.del e0) (fun hne hr => absurd hr hne)
  | finish id o hpc =>
    show EntryEvolution s (executeTaskFinish s id o) j
    unfold executeTaskFinish
    split
    · exact entryEvolution_of_eq j rfl
    · next e0 he0 =>
      have hpc0 : e0.pc = PC.executing := by
        unfold pcOf at hpc
        rw [he0] at hpc
        exact Option.some.inj hpc
      refine entryEvolution_of_set j he0 (EStep.finish e0 s.now o hpc0) ?_
      intro hne hr
      rcases finishEntry_status s.now o e0 with hst | hst <;> rw [hst] at hr <;>
        exact TaskStatus.noConfusion hr
  | wake id hpc =>
    show EntryEvolution s (executeTaskWake s id) j
    have hfe : ∃ e0, findEntry id s.entries = some e0 ∧ e0.pc = PC.waiting := by
      unfold pcOf at hpc
      cases hf : findEntry id s.entries with
      | none => rw [hf] at hpc; exact Option.noConfusion hpc
      | some e0 =>
        rw [hf] at hpc
        exact ⟨e0, rfl, Option.some.inj hpc⟩
    rcases hfe with ⟨e0, he0, hpc0⟩
    rw [executeTaskWake_eq_of_found he0]
    by_cases hcan : e0.task.status = TaskStatus.cancelled
    · rw [if_pos hcan]
      refine entryEvolution_of_set j he0 (EStep.wakeDone e0 hpc0 hcan) ?_
      intro hne hr
      exact absurd hr hne
    · rw [if_neg hcan, executeTaskAdmit_eq_of_found he0]
      by_cases h1 : s.maxConcurrent ≤ getRunningCount s
      · rw [if_pos h1]
        exact entryEvolution_of_eq j rfl
      · rw [if_neg h1, if_neg hcan]
        refine entryEvolution_of_set j he0 (EStep.run e0 s.now hpc0 hcan) ?_
        intro _ _
        exact Nat.lt_of_not_le h1
  | create o =>
    show EntryEvolution s (executeTaskAdmit (insertFresh s o) s.nextId) j
    by_cases hj : j = s.nextId
    · subst hj
      constructor
      · intro e he
        have := hw.1 _ (findEntry_mem he)
        omega
      · intro hn
        have hfind : findEntry s.nextId (insertFresh s o).entries =
            some (freshEntry s o) := by
          show findEntry s.nextId (s.entries ++ [(s.nextId, freshEntry s o)]) = _
          rw [findEntry_append_none _ hn, findEntry, if_pos rfl]
        rw [executeTaskAdmit_eq_of_found hfind]
        by_cases h1 : (insertFresh s o).maxConcurrent ≤ getRunningCount (insertFresh s o)
        · rw [if_pos h1]
          right
          exact ⟨freshEntry s o, hfind, rfl, Or.inl ⟨rfl, rfl⟩⟩
        · rw [if_neg h1,
              if_neg (fun hh : (freshEntry s o).task.status = TaskStatus.cancelled =>
                TaskStatus.noConfusion hh)]
          right
          refine ⟨{ freshEntry s o with
                      pc := PC.executing,
                      task := { (freshEntry s o).task with
                                  status := TaskStatus.running,
                                  startedAt := some s.now } }, ?_, rfl,
                  Or.inr ⟨rfl, rfl, ?_⟩⟩
          · rw [findEntry_setEntry_self, hfind]
            rfl
          · have hlt := Nat.lt_of_not_le h1
            rw [getRunningCount_insertFresh] at hlt
            exact hlt
    · have heq : findEntry j (executeTaskAdmit (insertFresh s o) s.nextId).entries =
          findEntry j s.entries := by
        rw [executeTaskAdmit_other hj]
        show findEntry j (s.entries ++ [(s.nextId, freshEntry s o)]) = findEntry j s.entries
        cases hf : findEntry j s.entries with
        | none =>
          rw [findEntry_append_none _ hf, findEntry,
              if_neg (fun hh => hj hh.symm)]
          rfl
        | some e => exact findEntry_append_some _ hf
      exact entryEvolution_of_eq j heq

/- ===================================================================
   Derived invariants: terminal permanence and cancelled stability
   =================================================================== -/

/-- A `completed` or `failed` task has a returned routine: only the
tail of `executeTask` writes those statuses, and it returns at once. -/
def TermDone (s : MState) : Prop :=
  ∀ j e, findEntry j s.entries = some e →
    (e.task.status = TaskStatus.completed ∨ e.task.status = TaskStatus.failed) →
    e.pc = PC.done

lemma termDone_step {s s' : MState} (hw : WFkeys s) (h : Step s s')
    (ht : TermDone s) : TermDone s' := by
  intro j e' hj' hterm
  have hev := step_entry h hw j
  cases hfe : findEntry j s.entries with
  | none =>
    rcases hev.2 hfe with hn | ⟨e'', hj'', hdel, hshape⟩
    · rw [hj'] at hn
      exact Option.noConfusion hn
    · rw [hj'] at hj''
      have he : e' = e'' := Option.some.inj hj''
      subst he
      rcases hshape with ⟨hs2, _⟩ | ⟨hs2, _, _⟩ <;> rw [hs2] at hterm <;>
        rcases hterm with h2 | h2 <;> exact TaskStatus.noConfusion h2
  | some e0 =>
    rcases hev.1 e0 hfe with ⟨e'', hj'', hes, _⟩
    rw [hj'] at hj''
    have he : e' = e'' := Option.some.inj hj''
    subst he
    cases hes with
    | same => exact ht j _ hfe hterm
    | del => exact ht j e0 hfe hterm
    | cancel t hpr =>
      rcases hterm with h2 | h2 <;> exact TaskStatus.noConfusion h2
    | wakeDone h1 h2 => rfl
    | run t h1 h2 =>
      rcases hterm with h2 | h2 <;> exact TaskStatus.noConfusion h2
    | finish t o hpc2 => exact finishEntry_pc t o _

lemma terminal_status_step {s s' : MState} (hw : WFkeys s) (ht : TermDone s)
    (h : Step s s') {j : Nat} {st : TaskStatus}
    (hterm : st = TaskStatus.completed ∨ st = TaskStatus.failed)
    (hst : statusOf s j = some st) : statusOf s' j = some st := by
  unfold statusOf at hst ⊢
  cases hfe : findEntry j s.entries with
  | none =>
    rw [hfe] at hst
    exact Option.noConfusion hst
  | some e0 =>
    rw [hfe] at hst
    have hse : e0.task.status = st := Option.some.inj hst
    have hpc : e0.pc = PC.done := ht j e0 hfe (by rw [hse]; exact hterm)
    rcases (step_entry h hw j).1 e0 hfe with ⟨e', hj', hes, _⟩
    rw [hj']
    cases hes with
    | same => exact hst
    | del => exact hst
    | cancel t hpr =>
      rcases hpr with h2 | h2 <;> rw [hse] at h2 <;> rcases hterm with h3 | h3 <;>
        rw [h3] at h2 <;> exact TaskStatus.noConfusion h2
    | wakeDone h1 h2 =>
      rw [hse] at h2
      rcases hterm with h3 | h3 <;> rw [h3] at h2 <;> exact TaskStatus.noConfusion h2
    | run t h1 h2 =>
      rw [hpc] at h1
      exact PC.noConfusion h1
    | finish t o hpc2 =>
      rw [hpc] at hpc2
      exact PC.noConfusion hpc2

/-- A task observed `cancelled` while its routine is not awaiting the
executor: stable under every step. -/
def QCancel (s : MState) (j : Nat) : Prop :=
  statusOf s j = some TaskStatus.cancelled ∧ pcOf s j ≠ some PC.executing

lemma qcancel_step {s s' : MState} (hw : WFkeys s) (h : Step s s') {j : Nat}
    (hq : QCancel s j) : QCancel s' j := by
  obtain ⟨hc, hp⟩ := hq
  unfold statusOf at hc
  unfold pcOf at hp
  cases hfe : findEntry j s.entries with
  | none =>
    rw [hfe] at hc
    exact Option.noConfusion hc
  | some e0 =>
    rw [hfe] at hc hp
    have hc0 : e0.task.status = TaskStatus.cancelled := Option.some.inj hc
    have hp0 : e0.pc ≠ PC.executing := fun hh => hp (congrArg some hh)
    rcases (step_entry h hw j).1 e0 hfe with ⟨e', hj', hes, _⟩
    cases hes with
    | same =>
      exact ⟨by unfold statusOf; rw [hj']; exact hc,
             by unfold pcOf; rw [hj']; exact hp⟩
    | del =>
      exact ⟨by unfold statusOf; rw [hj']; exact hc,
             by unfold pcOf; rw [hj']; exact hp⟩
    | cancel t hpr =>
      rcases hpr with h2 | h2 <;> rw [hc0] at h2 <;> exact TaskStatus.noConfusion h2
    | wakeDone h1 h2 =>
      refine ⟨by unfold statusOf; rw [hj']; exact hc, ?_⟩
      unfold pcOf
      rw [hj']
      exact fun hh => PC.noConfusion (Option.some.inj hh)
    | run t h1 h2 => exact absurd hc0 h2
    | finish t o hpc2 => exact absurd hpc2 hp0

lemma reachable_termDone {n : Nat} {s : MState} (h : Reachable n s) :
    TermDone s := by
  induction h with
  | init =>
    intro j e hj hterm
    exact Option.noConfusion hj
  | step hr hst ih => exact termDone_step (reachable_wf_count hr).1 hst ih

lemma reachable_stepStar {n : Nat} {s s' : MState} (h : Reachable n s)
    (hs : StepStar s s') : Reachable n s' := by
  induction hs with
  | refl => exact h
  | tail hss hstep ih => exact Reachable.step ih hstep

lemma terminal_status_stepStar {n : Nat} {s s' : MState} (hr : Reachable n s)
    (hss : StepStar s s') {j : Nat} {st : TaskStatus}
    (hterm : st = TaskStatus.completed ∨ st = TaskStatus.failed)
    (hst : statusOf s j = some st) : statusOf s' j = some st := by
  induction hss with
  | refl => exact hst
  | tail hss hstep ih =>
    have hr2 := reachable_stepStar hr hss
    exact terminal_status_step (reachable_wf_count hr2).1 (reachable_termDone hr2)
      hstep hterm ih

lemma qcancel_stepStar {n : Nat} {s s' : MState} (hr : Reachable n s)
    (hss : StepStar s s') {j : Nat} (hq : QCancel s j) : QCancel s' j := by
  induction hss with
  | refl => exact hq
  | tail hss hstep ih =>
    exact qcancel_step (reachable_wf_count (reachable_stepStar hr hss)).1 hstep ih

/- ===================================================================
   Concrete executable traces
   =================================================================== -/

/-- Concrete options used in the executable traces below. -/
def opts0 : CreateTaskOptions :=
  { task := "write a readme", workingDirectory := none, timeout := none,
    additionalArgs := none }

/-- Bound 3, one task created: it is admitted immediately (running). -/
def cexS1 : MState := (createTask (initState 3) opts0).1

/-- The running task is cancelled: its record becomes `cancelled`. -/
def cexS2 : MState := (cancelTask cexS1 0).1

/-- A successful executor result. -/
def okResult : ExecutionResult :=
  { success := true, stdout := "done", stderr := "", exitCode := some 0,
    error := none }

/-- The pending executor call then resolves: the routine overwrites
the terminal `cancelled` status with `completed`. -/
def cexS3 : MState := executeTaskFinish cexS2 0 (ExecOutcome.ok okResult)

/-- A later cancel attempt on the completed task (a no-op). -/
def cexS4 : MState := (cancelTask cexS3 0).1

/-- Bound 0: a created task can never be admitted and stays queued. -/
def qS1 : MState := (createTask (initState 0) opts0).1

/-- The queued task is cancelled while still `pending`. -/
def qS2 : MState := (cancelTask qS1 0).1

/-- The poll loop wakes: the routine returns without spawning. -/
def qS3 : MState := executeTaskWake qS2 0

lemma reach_cexS1 : Reachable 3 cexS1 :=
  Reachable.step Reachable.init (Step.create _ opts0)

lemma reach_cexS2 : Reachable 3 cexS2 :=
  Reachable.step reach_cexS1 (Step.cancel _ 0)

lemma reach_cexS3 : Reachable 3 cexS3 :=
  Reachable.step reach_cexS2 (Step.finish _ 0 _ (by decide))

lemma reach_qS2 : Reachable 0 qS2 :=
  Reachable.step (Reachable.step Reachable.init (Step.create _ opts0))
    (Step.cancel _ 0)

/- ===================================================================
   Claim theorems on the Task Manager
   =================================================================== -/

/-- C1 counterexample: the claim fails on the code.  From a fresh
manager (bound 3) create a task — it starts running at once — then
cancel it, moving the record into the terminal `cancelled` state; when
the still-pending executor call resolves, the background routine
overwrites the terminal status with `completed` (`executeTask` never
re-checks cancellation after starting the executor). -/
theorem C1_terminal_counterexample :
    Reachable 3 cexS2 ∧ Step cexS2 cexS3 ∧
    statusOf cexS2 0 = some TaskStatus.cancelled ∧
    statusOf cexS3 0 = some TaskStatus.completed :=
  ⟨reach_cexS2, Step.finish _ 0 _ (by decide), by decide, by decide⟩

/-- C1 amended: once a record is `completed` or `failed` its status
never changes again, and a record that is `cancelled` while its routine
is not awaiting the executor (cancelled while pending, or after the
routine returned) stays `cancelled` forever; only a record cancelled
while its routine awaits the executor is later overwritten with
`completed` or `failed`. -/
theorem C1_terminal_amended (n : Nat) (s s2 : MState) (j : Nat) (st : TaskStatus)
    (hr : Reachable n s) (hss : StepStar s s2) :
    ((st = TaskStatus.completed ∨ st = TaskStatus.failed) →
      statusOf s j = some st → statusOf s2 j = some st) ∧
    (statusOf s j = some TaskStatus.cancelled → pcOf s j ≠ some PC.executing →
      statusOf s2 j = some TaskStatus.cancelled) := by
  constructor
  · intro hterm hst
    exact terminal_status_stepStar hr hss hterm hst
  · intro hc hp
    exact (qcancel_stepStar hr hss ⟨hc, hp⟩).1

/-- C1 amended, witness: the completed status survives a later cancel
attempt. -/
theorem C1_terminal_amended_witness :
    statusOf cexS4 0 = some TaskStatus.completed :=
  (C1_terminal_amended 3 cexS3 cexS4 0 TaskStatus.completed reach_cexS3
    (StepStar.tail (StepStar.refl _) (Step.cancel _ 0))).1 (Or.inl rfl) (by decide)

/-- C2: in every reachable state of a manager constructed with bound n
the number of `running` records never exceeds n, and every transition
of a record into `running` happens from a state whose running count the
same atomic block observed to be strictly below n. -/
theorem C2_bounded_concurrency (n : Nat) (s s2 : MState) (j : Nat)
    (hr : Reachable n s) :
    getRunningCount s ≤ n ∧
    (Step s s2 → statusOf s j ≠ some TaskStatus.running →
      statusOf s2 j = some TaskStatus.running → getRunningCount s < n) := by
  obtain ⟨hw, hc, hm⟩ := reachable_wf_count hr
  refine ⟨hc, ?_⟩
  intro hstep hne hrun
  have hev := step_entry hstep hw j
  rw [← hm]
  cases hfe : findEntry j s.entries with
  | none =>
    rcases hev.2 hfe with hn | ⟨e2, hj2, hdel, hshape⟩
    · unfold statusOf at hrun
      rw [hn] at hrun
      exact Option.noConfusion hrun
    · unfold statusOf at hrun
      rw [hj2] at hrun
      have h2 : e2.task.status = TaskStatus.running := Option.some.inj hrun
      rcases hshape with ⟨hs2, _⟩ | ⟨_, _, hlt⟩
      · rw [hs2] at h2
        exact absurd h2 (fun hh => TaskStatus.noConfusion hh)
      · exact hlt
  | some e0 =>
    rcases hev.1 e0 hfe with ⟨e2, hj2, hes, hguard⟩
    unfold statusOf at hne hrun
    rw [hfe] at hne
    rw [hj2] at hrun
    have h2 : e2.task.status = TaskStatus.running := Option.some.inj hrun
    have h0 : e0.task.status ≠ TaskStatus.running := fun hh => hne (congrArg some hh)
    exact hguard h0 h2

/-- C2 witness: concrete bound check and admission guard. -/
theorem C2_bounded_concurrency_witness :
    getRunningCount cexS1 ≤ 3 ∧ getRunningCount (initState 3) < 3 :=
  ⟨(C2_bounded_concurrency 3 cexS1 cexS1 0 reach_cexS1).1,
   (C2_bounded_concurrency 3 (initState 3) cexS1 0 Reachable.init).2
     (Step.create _ opts0) (by decide) (by decide)⟩

/-- C3: a task whose status is `cancelled` while its routine still
waits for a concurrency slot never reaches the `executing` suspension
point in any later state — the executor is never invoked, so no child
process is ever spawned for it. -/
theorem C3_cancelled_pending_never_spawns (n : Nat) (s s2 : MState) (j : Nat)
    (hr : Reachable n s)
    (hc : statusOf s j = some TaskStatus.cancelled)
    (hp : pcOf s j = some PC.waiting)
    (hss : StepStar s s2) :
    pcOf s2 j ≠ some PC.executing := by
  have hq : QCancel s j :=
    ⟨hc, fun hh => PC.noConfusion (Option.some.inj (hp.symm.trans hh))⟩
  exact (qcancel_stepStar hr hss hq).2

/-- C3 witness: with bound 0 the created task stays queued, is
cancelled, and its routine returns without ever executing. -/
theorem C3_cancelled_pending_never_spawns_witness :
    pcOf qS3 0 ≠ some PC.executing :=
  C3_cancelled_pending_never_spawns 0 qS2 qS3 0 reach_qS2 (by decide) (by decide)
    (StepStar.tail (StepStar.refl _) (Step.wake _ 0 (by decide)))

lemma finishEntry_completedAt (now : Nat) (o : ExecOutcome) (e : TaskEntry) :
    (finishEntry now o e).task.completedAt = some now := by
  cases o with
  | ok r => by_cases h : r.success <;> simp [finishEntry, h]
  | exn msg => rfl

/-- C8: once a routine awaits the executor, its resumption always puts
the task into a terminal status with a completion stamp and a returned
routine; a thrown exception in particular is caught and recorded as
`failed` with the exception message in the error field. -/
theorem C8_exception_to_failed (s : MState) (id : Nat)
    (hpc : pcOf s id = some PC.executing) :
    (∀ o, ∃ e2, findEntry id (executeTaskFinish s id o).entries = some e2 ∧
        isTerminal e2.task.status = true ∧ e2.pc = PC.done ∧
        e2.task.completedAt = some s.now) ∧
    (∀ msg, ∃ e2,
        findEntry id (executeTaskFinish s id (ExecOutcome.exn msg)).entries =
          some e2 ∧
        e2.task.status = TaskStatus.failed ∧ e2.task.error = some msg ∧
        e2.task.completedAt = some s.now) := by
  have hfe : ∃ e0, findEntry id s.entries = some e0 := by
    unfold pcOf at hpc
    cases hf : findEntry id s.entries with
    | none => rw [hf] at hpc; exact Option.noConfusion hpc
    | some e0 => exact ⟨e0, rfl⟩
  rcases hfe with ⟨e0, he0⟩
  have hset : ∀ o, findEntry id (executeTaskFinish s id o).entries =
      some (finishEntry s.now o e0) := by
    intro o
    unfold executeTaskFinish
    rw [he0]
    show findEntry id (setEntry s id (finishEntry s.now o e0)).entries = _
    rw [findEntry_setEntry_self, he0]
    rfl
  constructor
  · intro o
    refine ⟨finishEntry s.now o e0, hset o, ?_, finishEntry_pc s.now o e0,
            finishEntry_completedAt s.now o e0⟩
    rcases finishEntry_status s.now o e0 with h | h <;> rw [h] <;> rfl
  · intro msg
    exact ⟨finishEntry s.now (ExecOutcome.exn msg) e0, hset _, rfl, rfl, rfl⟩

/-- C8 witness: an exception thrown under the running task of `cexS1`
is converted to a `failed` record with message and stamp. -/
theorem C8_exception_to_failed_witness :
    ∃ e2, findEntry 0 (executeTaskFinish cexS1 0 (ExecOutcome.exn "boom")).entries =
        some e2 ∧
      e2.task.status = TaskStatus.failed ∧ e2.task.error = some "boom" ∧
      e2.task.completedAt = some cexS1.now :=
  (C8_exception_to_failed cexS1 0 (by decide)).2 "boom"

/-- C4: a `create-task` call whose timeout exceeds the 3600s cap is
rejected by the input schema before `TaskManager.createTask` runs: the
handler reports an error and the manager state — in particular the set
of task records — is unchanged. -/
theorem C4_timeout_rejected (s : MState) (i : CreateTaskOptions) (t : Nat)
    (h1 : i.timeout = some t) (h2 : 3600 < t) :
    createTaskToolHandler s i = (s, none) := by
  have hno : createTaskSchemaOk i.timeout = false := by
    rw [h1]
    show (decide (1 ≤ t) && decide (t ≤ 3600)) = false
    have hd : decide (t ≤ 3600) = false := decide_eq_false (by omega)
    rw [hd, Bool.and_false]
  unfold createTaskToolHandler
  rw [hno]
  simp only [Bool.false_eq_true, if_false]

/-- C4 witness: timeout 5000 is rejected with no record created. -/
theorem C4_timeout_rejected_witness :
    createTaskToolHandler (initState 3)
      { task := "long job", workingDirectory := none, timeout := some 5000,
        additionalArgs := none } = (initState 3, none) :=
  C4_timeout_rejected (initState 3) _ 5000 rfl (by omega)

lemma countStatus_partition (l : List Task) :
    countStatus TaskStatus.pending l + countStatus TaskStatus.running l +
    countStatus TaskStatus.completed l + countStatus TaskStatus.failed l +
    countStatus TaskStatus.cancelled l = l.length := by
  induction l with
  | nil => rfl
  | cons a t ih =>
    have key : ∀ st, countStatus st (a :: t) =
        (if a.status = st then 1 else 0) + countStatus st t := by
      intro st
      unfold countStatus
      by_cases h : a.status = st <;> simp [countB, h]
    rw [key, key, key, key, key, List.length_cons]
    cases h : a.status <;> simp only [h] <;> simp <;> omega

/-- C10: in every reachable state `getStats` reports a total equal to
the number of stored records, and the five status counters partition
that total — every record has exactly one of the five statuses. -/
theorem C10_stats_partition (n : Nat) (s : MState) (hr : Reachable n s) :
    (getStats s).total = (liveTasks s).length ∧
    (getStats s).total =
      (getStats s).pending + (getStats s).running + (getStats s).completed +
      (getStats s).failed + (getStats s).cancelled := by
  refine ⟨rfl, ?_⟩
  show (liveTasks s).length = _
  rw [← countStatus_partition (liveTasks s)]
  rfl

/-- C10 witness: the stats identity evaluated on a concrete reachable
state. -/
theorem C10_stats_partition_witness :
    (getStats cexS3).total = (liveTasks cexS3).length ∧
    (getStats cexS3).total =
      (getStats cexS3).pending + (getStats cexS3).running +
      (getStats cexS3).completed + (getStats cexS3).failed +
      (getStats cexS3).cancelled :=
  C10_stats_partition 3 cexS3 reach_cexS3

end BackAgent
